import Mathlib

/-!
Verification of the billing computation engine of the TrackTM daily
timesheet application (src/frontend/app.js, the simplified-entry variant).

Monetary values and parsed numeric inputs are modelled as rationals.
A numeric form field is modelled as an Option value: none stands for an
input whose JavaScript parseFloat result is NaN (empty or unparsable),
some q stands for a field that parses to the number q.
-/

namespace TrackTM

/-- Model of the JavaScript idiom parseFloat(input.value) or-else 0:
an empty or unparsable field yields 0, and a parsed 0 is also 0. -/
def parseOrZero : Option ℚ → ℚ
  | none => 0
  | some q => q

/-- A labor role from the labor-roles catalog (id, straight hourly rate,
overtime hourly rate). -/
structure LaborRole where
  id : ℕ
  straight_rate : ℚ
  overtime_rate : ℚ
deriving DecidableEq

/-- Translation of updateEmployeeTotal (app.js lines 1519-1541): read the
regular-hours, overtime-hours and night-shift inputs of one fixed-rate
labor row, add 2.00 to both rates when night shift is checked, and
compute regHours * regRate + otHours * otRate. -/
def updateEmployeeTotal (role : LaborRole) (reg ot : Option ℚ) (night : Bool) : ℚ :=
  let regHours := parseOrZero reg
  let otHours := parseOrZero ot
  let regRate := if night then role.straight_rate + 2 else role.straight_rate
  let otRate := if night then role.overtime_rate + 2 else role.overtime_rate
  regHours * regRate + otHours * otRate

/-- The Rate Resolver as the specification states it: given base regular
and overtime rates and the night-shift flag, yield the effective rate
pair, adding a fixed differential of 2.00 to both when the flag is set.
Stated separately from updateEmployeeTotal so the two can be compared. -/
def rateResolver (straight overtime : ℚ) (night : Bool) : ℚ × ℚ :=
  if night then (straight + 2, overtime + 2) else (straight, overtime)

/-- Translation of updateLineTotal (app.js lines 1660-1670): a material
line total is qty * price where each field is parseFloat or-else 0. -/
def updateLineTotal (qty price : Option ℚ) : ℚ :=
  parseOrZero qty * parseOrZero price

/-- One material row of the entry form: catalog material id plus the
quantity and unit-price inputs. -/
structure MaterialRow where
  materialId : ℕ
  qty : Option ℚ
  price : Option ℚ
deriving DecidableEq

/-- One equipment row of the simplified equipment table: equipment name,
the pieces and hours inputs, and the hourly rate carried in the
data-hourly-rate attribute of the hours input. -/
structure EquipmentRow where
  equipmentName : String
  pieces : Option ℚ
  hours : Option ℚ
  hourlyRate : Option ℚ
deriving DecidableEq

/-- One fixed-rate labor row: its role, the employee-name text input, the
regular and overtime hours inputs and the night-shift checkbox. -/
structure LaborRow where
  role : LaborRole
  employeeName : String
  reg : Option ℚ
  ot : Option ℚ
  night : Bool
deriving DecidableEq

/-- One burdened-employee labor row of the EmployeesModule section
(employee id plus hours inputs and night-shift checkbox). -/
structure EmployeeRow where
  employeeId : ℕ
  reg : Option ℚ
  ot : Option ℚ
  night : Bool
deriving DecidableEq

/-- Pieces value used by the equipment input listener
(setupSimplifiedEquipmentListeners, app.js lines 1566-1568):
piecesValue = parseFloat(piecesInput.value); pieces = 1 when that is NaN
or less than 1, the entered value otherwise. -/
def listenerPieces : Option ℚ → ℚ
  | none => 1
  | some v => if v < 1 then 1 else v

/-- Equipment line total as recomputed by the input listener
(app.js lines 1567-1573): pieces * hours * hourlyRate, hours and rate
parseFloat or-else 0. -/
def equipListenerTotal (r : EquipmentRow) : ℚ :=
  listenerPieces r.pieces * parseOrZero r.hours * parseOrZero r.hourlyRate

/-- A stored equipment rental item of a loaded entry, as matched by name
in createSimplifiedEquipmentSection: an optional stored pieces field and
the stored quantity (hours). -/
structure ExistingEquipmentItem where
  pieces : Option ℚ
  quantity : ℚ
deriving DecidableEq

/-- Pieces value used when rendering an existing entry
(createSimplifiedEquipmentSection, app.js line 1263): the JavaScript
expression (existingItem and-then existingItem.pieces) ? pieces : 1 keeps
any truthy stored number, so only an absent item, an absent field or a
stored 0 falls back to 1. -/
def renderPieces : Option ExistingEquipmentItem → ℚ
  | none => 1
  | some ei =>
    match ei.pieces with
    | none => 1
    | some v => if v = 0 then 1 else v

/-- Hours used when rendering: existingItem ? existingItem.quantity : 0
(app.js line 1264). -/
def renderHours : Option ExistingEquipmentItem → ℚ
  | none => 0
  | some ei => ei.quantity

/-- Initial equipment line total written into the Total cell when the
form is rendered (app.js line 1268): pieces * hours * hourlyRate. -/
def initialTotal (existing : Option ExistingEquipmentItem) (hourlyRate : ℚ) : ℚ :=
  renderPieces existing * renderHours existing * hourlyRate

/-- Decimal digit characters of a natural number, most significant first,
written with explicit fuel so that the definition is structurally
recursive; natDigits below supplies sufficient fuel. -/
def natDigitsGo : ℕ → ℕ → List Char
  | 0, _ => []
  | fuel + 1, n =>
    if n < 10 then [Nat.digitChar n]
    else natDigitsGo fuel (n / 10) ++ [Nat.digitChar (n % 10)]

/-- Decimal digit characters of a natural number, as JavaScript renders
an integer (0 renders as the single character 0). -/
def natDigits (n : ℕ) : List Char :=
  natDigitsGo (n + 1) n

/-- Two-digit zero-padded rendering of a value below 100, used for the
cents part of toFixed(2). -/
def pad2 (m : ℕ) : List Char :=
  [Nat.digitChar (m / 10), Nat.digitChar (m % 10)]

/-- Cents of a nonnegative amount under the rounding of
Number.prototype.toFixed: the integer n minimizing the distance of
n / 100 to the amount, ties resolved upward, i.e. the floor of
amount * 100 + 1 / 2. -/
def centsOf (x : ℚ) : ℕ :=
  (Int.floor (x * 100 + 1 / 2)).toNat

/-- Digit string of toFixed(2) for a nonnegative amount: the integer
cents split as integer part, a dot, and two padded cent digits. -/
def toFixed2Core (x : ℚ) : List Char :=
  natDigits (centsOf x / 100) ++ '.' :: pad2 (centsOf x % 100)

/-- Model of amount.toFixed(2): for a negative amount toFixed renders a
leading minus sign and formats the magnitude. -/
def toFixed2 (q : ℚ) : String :=
  if q < 0 then String.mk ('-' :: toFixed2Core (-q)) else String.mk (toFixed2Core q)

/-- Translation of formatCurrency (app.js lines 946-948): the dollar
sign prepended to amount.toFixed(2). -/
def formatCurrency (amount : ℚ) : String :=
  "$" ++ toFixed2 amount

/-- The numeric value a display amount round-trips to: the amount
rounded to the nearest cent (ties away from the magnitude midpoint as in
toFixed), with the sign restored. -/
def round2 (q : ℚ) : ℚ :=
  if q < 0 then -((centsOf (-q) : ℚ) / 100) else (centsOf q : ℚ) / 100

/-- Value of a digit string under left-to-right accumulation, the way
parseFloat reads the integer part of a numeral. -/
def decodeDigits : List Char → ℕ → ℕ
  | [], acc => acc
  | c :: t, acc => decodeDigits t (acc * 10 + (c.toNat - 48))

/-- Split a character list at the first dot: the characters before it
and the characters after it (everything, paired with [], when no dot
occurs). -/
def splitAtDot : List Char → List Char × List Char
  | [] => ([], [])
  | c :: t =>
    if c = '.' then ([], t)
    else
      let p := splitAtDot t
      (c :: p.1, p.2)

/-- Value of an unsigned decimal numeral: integer part plus fractional
digits scaled by their count, as parseFloat evaluates it. -/
def decodeFixed2Core (ds : List Char) : ℚ :=
  let p := splitAtDot ds
  (decodeDigits p.1 0 : ℚ) + (decodeDigits p.2 0 : ℚ) / 10 ^ p.2.length

/-- Signed decimal numeral value: a leading minus sign negates the
magnitude. -/
def decodeFixed2 : List Char → ℚ
  | [] => 0
  | c :: t => if c = '-' then -(decodeFixed2Core t) else decodeFixed2Core (c :: t)

/-- Model of the cell-reading idiom of calculateTotal (app.js lines
1685-1698): textContent.replace of all dollar signs and commas followed
by parseFloat. -/
def parseCell (s : String) : ℚ :=
  decodeFixed2 (s.data.filter (fun c => !(c == '$' || c == ',')))

/-- State of the entry form: header fields, the three kinds of rows, the
burdened-employee rows of the EmployeesModule section, and the number
the external call window.EmployeesModule.calculateTotal() returns (that
module is not part of the sources under verification, so its total
enters as an opaque value). -/
structure FormState where
  jobNumber : String
  entryDate : String
  materials : List MaterialRow
  equipment : List EquipmentRow
  labor : List LaborRow
  employees : List EmployeeRow
  employeesModuleTotal : ℚ
deriving DecidableEq

/-- Line total of one fixed-rate labor row, as updateEmployeeTotal
computes it from the row inputs and its role rates. -/
def laborRowTotal (r : LaborRow) : ℚ :=
  updateEmployeeTotal r.role r.reg r.ot r.night

/-- Materials subtotal: the materials loop of calculateTotal (app.js
lines 1676-1682) recomputes qty * price from the inputs of every
material row and sums the products. -/
def materialsSubtotal (rows : List MaterialRow) : ℚ :=
  (rows.map (fun r => parseOrZero r.qty * parseOrZero r.price)).sum

/-- Equipment subtotal in the sense of the specification: the sum of the
computed equipment line totals. -/
def equipmentSubtotal (rows : List EquipmentRow) : ℚ :=
  (rows.map equipListenerTotal).sum

/-- Fixed-rate labor subtotal in the sense of the specification: the sum
of the computed fixed-rate labor line totals. -/
def fixedLaborSubtotal (rows : List LaborRow) : ℚ :=
  (rows.map laborRowTotal).sum

/-- Text standing in an equipment Total cell once the input listener has
run: the template literal dollar sign followed by total.toFixed(2)
(app.js line 1577). -/
def equipmentCellText (r : EquipmentRow) : String :=
  "$" ++ toFixed2 (equipListenerTotal r)

/-- Text standing in a fixed-rate labor Total cell once
updateEmployeeTotal has run: formatCurrency of the row total (app.js
line 1540). -/
def laborCellText (r : LaborRow) : String :=
  formatCurrency (laborRowTotal r)

/-- Translation of calculateTotal (app.js lines 1672-1705): materials
are recomputed from their inputs, the equipment and fixed-rate labor
contributions are parsed back out of the formatted Total cells, and the
EmployeesModule total is added. -/
def calculateTotal (s : FormState) : ℚ :=
  materialsSubtotal s.materials
    + (s.equipment.map (fun r => parseCell (equipmentCellText r))).sum
    + (s.labor.map (fun r => parseCell (laborCellText r))).sum
    + s.employeesModuleTotal

/-- A material object pushed into the save payload (app.js lines
1735-1739); unit_price is parseFloat with no or-else-0 default, so it
stays an Option. -/
structure LineItemPayload where
  material_id : ℕ
  quantity : ℚ
  unit_price : Option ℚ
deriving DecidableEq

/-- An equipment object pushed into the save payload (app.js lines
1751-1757). -/
structure EquipmentItemPayload where
  equipment_rental_id : ℕ
  quantity : ℚ
  unit_rate : Option ℚ
  rate_period : String
  equipment_name : String
deriving DecidableEq

/-- A labor object in the combined labor_items list of the save payload:
either a fixed-rate row (app.js lines 1776-1782) or a burdened
EmployeesModule entry. -/
inductive LaborItemPayload where
  | fixedRate (labor_role_id : ℕ) (employee_name : Option String)
      (regular_hours overtime_hours : ℚ) (night_shift : Bool)
  | burdened (employee_id : ℕ) (regular_hours overtime_hours : ℚ) (night_shift : Bool)
deriving DecidableEq

/-- Regular hours of a labor payload object of either kind. -/
def LaborItemPayload.regular_hours : LaborItemPayload → ℚ
  | .fixedRate _ _ rh _ _ => rh
  | .burdened _ rh _ _ => rh

/-- Overtime hours of a labor payload object of either kind. -/
def LaborItemPayload.overtime_hours : LaborItemPayload → ℚ
  | .fixedRate _ _ _ oh _ => oh
  | .burdened _ _ oh _ => oh

/-- The material payload object built from one material row. -/
def matPayload (r : MaterialRow) : LineItemPayload :=
  ⟨r.materialId, parseOrZero r.qty, r.price⟩

/-- The equipment payload object built from one equipment row:
equipment_rental_id 0 as placeholder, hours as quantity, rate_period
hourly, and the equipment name. -/
def equipPayload (r : EquipmentRow) : EquipmentItemPayload :=
  ⟨0, parseOrZero r.hours, r.hourlyRate, "hourly", r.equipmentName⟩

/-- The labor payload object built from one fixed-rate labor row; an
empty employee-name input becomes null. -/
def fixedLaborPayload (r : LaborRow) : LaborItemPayload :=
  .fixedRate r.role.id (if r.employeeName = "" then none else some r.employeeName)
    (parseOrZero r.reg) (parseOrZero r.ot) r.night

/-- The labor payload object built from one burdened-employee row. -/
def employeePayload (r : EmployeeRow) : LaborItemPayload :=
  .burdened r.employeeId (parseOrZero r.reg) (parseOrZero r.ot) r.night

/-- Material collection loop of saveEntry (app.js lines 1727-1741): a
row is pushed exactly when its parsed quantity is positive. -/
def collectLineItems : List MaterialRow → List LineItemPayload
  | [] => []
  | r :: t =>
    if 0 < parseOrZero r.qty then matPayload r :: collectLineItems t
    else collectLineItems t

/-- Equipment collection loop of saveEntry (app.js lines 1744-1759): a
row is pushed exactly when its parsed hours are positive. -/
def collectEquipmentItems : List EquipmentRow → List EquipmentItemPayload
  | [] => []
  | r :: t =>
    if 0 < parseOrZero r.hours then equipPayload r :: collectEquipmentItems t
    else collectEquipmentItems t

/-- Fixed-rate labor collection loop of saveEntry (app.js lines
1762-1784): a row is pushed exactly when its parsed regular or overtime
hours are positive. -/
def collectLaborItems : List LaborRow → List LaborItemPayload
  | [] => []
  | r :: t =>
    if 0 < parseOrZero r.reg ∨ 0 < parseOrZero r.ot then
      fixedLaborPayload r :: collectLaborItems t
    else collectLaborItems t

/-- Modelled from the spec: window.EmployeesModule.collectEntries (the
employees module source is not under src/). Per the specification,
burdened-employee line items follow the same non-empty policy as every
other line kind: a row is included exactly when its driving quantity,
regular or overtime hours, is strictly positive. -/
def collectEntries : List EmployeeRow → List LaborItemPayload
  | [] => []
  | r :: t =>
    if 0 < parseOrZero r.reg ∨ 0 < parseOrZero r.ot then
      employeePayload r :: collectEntries t
    else collectEntries t

/-- Body of the POST request saveEntry issues (app.js lines 1801-1807). -/
structure SavePayload where
  job_number : String
  entry_date : String
  line_items : List LineItemPayload
  equipment_items : List EquipmentItemPayload
  labor_items : List LaborItemPayload
deriving DecidableEq

/-- Outcome of saveEntry: the missing-field alert, the
at-least-one-line-item alert, or the POST of a payload. -/
inductive SaveResult where
  | missingField
  | emptyEntry
  | post (payload : SavePayload)
deriving DecidableEq

/-- Translation of saveEntry (app.js lines 1713-1808): refuse when job
number or date is empty, collect the three kinds of line items, append
the EmployeesModule entries to the fixed-rate labor items, refuse when
everything collected is empty, otherwise POST the payload. -/
def saveEntry (s : FormState) : SaveResult :=
  if s.jobNumber = "" ∨ s.entryDate = "" then .missingField
  else
    let lineItems := collectLineItems s.materials
    let equipmentItems := collectEquipmentItems s.equipment
    let laborItems := collectLaborItems s.labor
    let employeeItems := collectEntries s.employees
    let allLaborItems := laborItems ++ employeeItems
    if lineItems = [] ∧ allLaborItems = [] ∧ equipmentItems = [] then .emptyEntry
    else .post ⟨s.jobNumber, s.entryDate, lineItems, equipmentItems, allLaborItems⟩

/-- Outcome of loadEntry: the missing-field alert, or the GET request
for the entry of the given job and date. -/
inductive LoadResult where
  | missingField
  | fetchRequest (job date : String)
deriving DecidableEq

/-- Translation of the validation head of loadEntry (app.js lines
1046-1053): refuse before any request when job number or date is empty,
otherwise fetch the entry for the pair. -/
def loadEntry (job date : String) : LoadResult :=
  if job = "" ∨ date = "" then .missingField
  else .fetchRequest job date

/-- A painter-style role at 20.00 straight and 30.00 overtime, used by
the end-to-end scenario of the specification. -/
def painterRole : LaborRole := ⟨1, 20, 30⟩

/-- Scenario B row one: 8 regular hours on the 20.00 role, day shift. -/
def scenarioStraightRow : LaborRow := ⟨painterRole, "", some 8, none, false⟩

/-- Scenario B row two: 8 regular hours on the same role, night shift. -/
def scenarioNightRow : LaborRow := ⟨painterRole, "", some 8, none, true⟩

/-- A role whose straight rate 2501/250 = 10.004 is not exact to the
cent, exhibiting the display rounding of the total pipeline. -/
def fractionalRateRole : LaborRole := ⟨2, 2501 / 250, 30⟩

/-- Form state whose every line total is exact to the cent: one material
10 x 2.50, one equipment 2 pieces x 3 h x 10.00, one labor row of
scenario B. -/
def exactState : FormState :=
  ⟨"100", "2024-06-01", [⟨1, some 10, some (5 / 2)⟩], [⟨"Crane", some 2, some 3, some 10⟩],
    [scenarioStraightRow], [], 0⟩

/-- Form state with a single labor row of one regular hour at the
10.004 rate, whose line total is not exact to the cent. -/
def subcentState : FormState :=
  ⟨"100", "2024-06-01", [], [], [⟨fractionalRateRole, "", some 1, none, false⟩], [], 0⟩

/-- Form state with a single equipment row of one hour at hourly rate
2501/125 = 20.008, whose Total cell displays 20.01. -/
def reparseState : FormState :=
  ⟨"100", "2024-06-01", [], [⟨"Crane", none, some 1, some (2501 / 125)⟩], [], [], 0⟩

/-- The stored equipment item with a fractional pieces value 1/2 and a
stored quantity of 2 hours. -/
def halfPieceItem : ExistingEquipmentItem := ⟨some (1 / 2), 2⟩

/-- Form state mixing positive and zero rows of every kind, used to
exercise the save collection. -/
def saveState : FormState :=
  ⟨"100", "2024-06-01",
    [⟨7, some 5, some 2⟩, ⟨8, none, some 3⟩],
    [⟨"Lift", some 1, some 4, some 25⟩, ⟨"Crane", some 1, none, some 50⟩],
    [⟨painterRole, "Pat", some 8, none, false⟩, ⟨painterRole, "", none, none, false⟩],
    [⟨3, some 2, none, true⟩, ⟨4, none, none, false⟩], 0⟩

/-- The payload saveEntry posts for saveState: only the rows with a
positive driving quantity survive. -/
def savedPayload : SavePayload :=
  ⟨"100", "2024-06-01",
    [matPayload ⟨7, some 5, some 2⟩],
    [equipPayload ⟨"Lift", some 1, some 4, some 25⟩],
    [fixedLaborPayload ⟨painterRole, "Pat", some 8, none, false⟩,
      employeePayload ⟨3, some 2, none, true⟩]⟩

/-- Form state with an empty job number. -/
def missingJobState : FormState := ⟨"", "2024-06-01", [], [], [], [], 0⟩

/-- Form state with a valid header but only zero or empty rows. -/
def zeroState : FormState :=
  ⟨"100", "2024-06-01", [⟨7, some 0, some 2⟩], [⟨"Lift", some 1, none, some 25⟩],
    [⟨painterRole, "", some 0, none, false⟩], [⟨3, none, some 0, false⟩], 0⟩

lemma digitChar_toNat_eq {d : ℕ} (h : d < 10) : (Nat.digitChar d).toNat = 48 + d := by
  interval_cases d <;> rfl

lemma digitChar_isDigit {d : ℕ} (h : d < 10) : (Nat.digitChar d).isDigit := by
  interval_cases d <;> decide

lemma isDigit_ne_special {c : Char} (h : c.isDigit) :
    c ≠ '.' ∧ c ≠ '-' ∧ c ≠ '$' ∧ c ≠ ',' := by
  refine ⟨?_, ?_, ?_, ?_⟩ <;> rintro rfl <;> exact absurd h (by decide)

lemma decodeDigits_append (a b : List Char) (acc : ℕ) :
    decodeDigits (a ++ b) acc = decodeDigits b (decodeDigits a acc) := by
  induction a generalizing acc with
  | nil => rfl
  | cons c t ih => simpa [decodeDigits] using ih _

lemma natDigitsGo_digits :
    ∀ fuel n, ∀ c ∈ natDigitsGo fuel n, c.isDigit := by
  intro fuel
  induction fuel with
  | zero => intro n c hc; simp [natDigitsGo] at hc
  | succ f ih =>
    intro n c hc
    by_cases h10 : n < 10
    · simp [natDigitsGo, h10] at hc
      subst hc
      exact digitChar_isDigit h10
    · simp only [natDigitsGo, if_neg h10, List.mem_append, List.mem_singleton] at hc
      rcases hc with hc | hc
      · exact ih _ _ hc
      · subst hc
        exact digitChar_isDigit (Nat.mod_lt _ (by norm_num))

lemma natDigitsGo_decode :
    ∀ fuel n acc, n < fuel →
      decodeDigits (natDigitsGo fuel n) acc = acc * 10 ^ (natDigitsGo fuel n).length + n := by
  intro fuel
  induction fuel with
  | zero => intro n acc h; omega
  | succ f ih =>
    intro n acc h
    by_cases h10 : n < 10
    · simp only [natDigitsGo, if_pos h10, decodeDigits, digitChar_toNat_eq h10,
        List.length_singleton, pow_one]
      omega
    · have hdiv : n / 10 < f := by
        have h1 : n / 10 < n := Nat.div_lt_self (by omega) (by norm_num)
        omega
      have hmod : n % 10 < 10 := Nat.mod_lt _ (by norm_num)
      simp only [natDigitsGo, if_neg h10, decodeDigits_append, ih _ _ hdiv,
        List.length_append, List.length_singleton, decodeDigits, digitChar_toNat_eq hmod]
      rw [pow_succ, ← mul_assoc]
      omega

lemma natDigits_digits {n : ℕ} {c : Char} (hc : c ∈ natDigits n) : c.isDigit :=
  natDigitsGo_digits _ _ _ hc

lemma natDigits_decode (n : ℕ) : decodeDigits (natDigits n) 0 = n := by
  simpa using natDigitsGo_decode (n + 1) n 0 (Nat.lt_succ_self n)

lemma natDigits_ne_nil (n : ℕ) : natDigits n ≠ [] := by
  unfold natDigits natDigitsGo
  by_cases h10 : n < 10 <;> simp [h10]

lemma pad2_digits {m : ℕ} (hm : m < 100) {c : Char} (hc : c ∈ pad2 m) : c.isDigit := by
  have h1 : m / 10 < 10 := by omega
  have h2 : m % 10 < 10 := Nat.mod_lt _ (by norm_num)
  simp only [pad2, List.mem_cons, List.mem_singleton] at hc
  rcases hc with rfl | rfl | h
  · exact digitChar_isDigit h1
  · exact digitChar_isDigit h2
  · simp at h

lemma pad2_decode {m : ℕ} (hm : m < 100) : decodeDigits (pad2 m) 0 = m := by
  have h1 : m / 10 < 10 := by omega
  have h2 : m % 10 < 10 := Nat.mod_lt _ (by norm_num)
  simp [pad2, decodeDigits, digitChar_toNat_eq h1, digitChar_toNat_eq h2]
  omega

lemma splitAtDot_of_append (l r : List Char) (hl : '.' ∉ l) :
    splitAtDot (l ++ '.' :: r) = (l, r) := by
  induction l with
  | nil => simp [splitAtDot]
  | cons c t ih =>
    have hc : c ≠ '.' := fun h => hl (h ▸ List.mem_cons_self c t)
    have ht : '.' ∉ t := fun h => hl (List.mem_cons_of_mem c h)
    simp [splitAtDot, hc, ih ht]

lemma decodeCore_format (a b : ℕ) (hb : b < 100) :
    decodeFixed2Core (natDigits a ++ '.' :: pad2 b) = (a : ℚ) + (b : ℚ) / 100 := by
  have hdot : '.' ∉ natDigits a := fun h => (isDigit_ne_special (natDigits_digits h)).1 rfl
  have hlen : (pad2 b).length = 2 := rfl
  simp only [decodeFixed2Core, splitAtDot_of_append _ _ hdot, natDigits_decode,
    pad2_decode hb, hlen]
  norm_num

lemma natCast_split (c : ℕ) :
    ((c / 100 : ℕ) : ℚ) + ((c % 100 : ℕ) : ℚ) / 100 = (c : ℚ) / 100 := by
  have key : ((c / 100 : ℕ) : ℚ) * 100 + ((c % 100 : ℕ) : ℚ) = (c : ℚ) := by
    exact_mod_cast (by omega : (c / 100) * 100 + c % 100 = c)
  field_simp
  linarith [key]

lemma toFixed2Core_chars {x : ℚ} {c : Char} (hc : c ∈ toFixed2Core x) :
    c.isDigit ∨ c = '.' := by
  simp only [toFixed2Core, List.mem_append, List.mem_cons] at hc
  rcases hc with h | h | h
  · exact Or.inl (natDigits_digits h)
  · exact Or.inr h
  · exact Or.inl (pad2_digits (Nat.mod_lt _ (by norm_num)) h)

lemma keepChar_of_core {c : Char} (hc : c.isDigit ∨ c = '.') :
    (!(c == '$' || c == ',')) = true := by
  rcases hc with h | rfl
  · have := isDigit_ne_special h
    simp [this.2.2.1, this.2.2.2]
  · decide

lemma filter_core (x : ℚ) :
    (toFixed2Core x).filter (fun c => !(c == '$' || c == ',')) = toFixed2Core x :=
  List.filter_eq_self.mpr fun _ hc => keepChar_of_core (toFixed2Core_chars hc)

lemma decodeCore_toFixed2Core (x : ℚ) :
    decodeFixed2Core (toFixed2Core x) = (centsOf x : ℚ) / 100 := by
  rw [toFixed2Core, decodeCore_format _ _ (Nat.mod_lt _ (by norm_num)), natCast_split]

lemma decodeFixed2_toFixed2Core (x : ℚ) :
    decodeFixed2 (toFixed2Core x) = (centsOf x : ℚ) / 100 := by
  obtain ⟨c, t, hct⟩ : ∃ c t, natDigits (centsOf x / 100) = c :: t := by
    cases h : natDigits (centsOf x / 100) with
    | nil => exact absurd h (natDigits_ne_nil _)
    | cons c t => exact ⟨c, t, rfl⟩
  have hcdig : c.isDigit := natDigits_digits (hct ▸ List.mem_cons_self c t)
  have hcne : c ≠ '-' := (isDigit_ne_special hcdig).2.1
  have hshape : toFixed2Core x = c :: (t ++ '.' :: pad2 (centsOf x % 100)) := by
    simp [toFixed2Core, hct]
  rw [hshape, decodeFixed2, if_neg hcne, ← List.cons_append, ← hct,
    decodeCore_format _ _ (Nat.mod_lt _ (by norm_num)), natCast_split]

/-- Parsing a formatted currency cell back, the way calculateTotal reads
its Total cells, recovers the amount rounded to the nearest cent. -/
lemma parseCell_formatCurrency (q : ℚ) : parseCell (formatCurrency q) = round2 q := by
  by_cases hq : q < 0
  · have hdata : (formatCurrency q).data = '$' :: '-' :: toFixed2Core (-q) := by
      simp [formatCurrency, toFixed2, hq, String.data_append]
    rw [parseCell, hdata, List.filter_cons_of_neg (by decide),
      List.filter_cons_of_pos (by decide), filter_core, decodeFixed2, if_pos rfl,
      decodeCore_toFixed2Core, round2, if_pos hq]
  · have hdata : (formatCurrency q).data = '$' :: toFixed2Core q := by
      simp [formatCurrency, toFixed2, hq, String.data_append]
    rw [parseCell, hdata, List.filter_cons_of_neg (by decide), filter_core,
      decodeFixed2_toFixed2Core, round2, if_neg hq]

lemma parseCell_cellText (q : ℚ) : parseCell ("$" ++ toFixed2 q) = round2 q :=
  parseCell_formatCurrency q

lemma mem_collectLineItems {rows : List MaterialRow} {x : LineItemPayload} :
    x ∈ collectLineItems rows ↔ ∃ r ∈ rows, 0 < parseOrZero r.qty ∧ x = matPayload r := by
  induction rows with
  | nil => simp [collectLineItems]
  | cons r t ih =>
    by_cases h : 0 < parseOrZero r.qty
    · simp only [collectLineItems, if_pos h, List.mem_cons, ih]
      constructor
      · rintro (rfl | ⟨r', hr', hq', rfl⟩)
        · exact ⟨r, Or.inl rfl, h, rfl⟩
        · exact ⟨r', Or.inr hr', hq', rfl⟩
      · rintro ⟨r', rfl | hr', hq', rfl⟩
        · exact Or.inl rfl
        · exact Or.inr ⟨r', hr', hq', rfl⟩
    · simp only [collectLineItems, if_neg h, ih, List.mem_cons]
      constructor
      · rintro ⟨r', hr', hq', rfl⟩
        exact ⟨r', Or.inr hr', hq', rfl⟩
      · rintro ⟨r', rfl | hr', hq', rfl⟩
        · exact absurd hq' h
        · exact ⟨r', hr', hq', rfl⟩

lemma mem_collectEquipmentItems {rows : List EquipmentRow} {x : EquipmentItemPayload} :
    x ∈ collectEquipmentItems rows
      ↔ ∃ r ∈ rows, 0 < parseOrZero r.hours ∧ x = equipPayload r := by
  induction rows with
  | nil => simp [collectEquipmentItems]
  | cons r t ih =>
    by_cases h : 0 < parseOrZero r.hours
    · simp only [collectEquipmentItems, if_pos h, List.mem_cons, ih]
      constructor
      · rintro (rfl | ⟨r', hr', hq', rfl⟩)
        · exact ⟨r, Or.inl rfl, h, rfl⟩
        · exact ⟨r', Or.inr hr', hq', rfl⟩
      · rintro ⟨r', rfl | hr', hq', rfl⟩
        · exact Or.inl rfl
        · exact Or.inr ⟨r', hr', hq', rfl⟩
    · simp only [collectEquipmentItems, if_neg h, ih, List.mem_cons]
      constructor
      · rintro ⟨r', hr', hq', rfl⟩
        exact ⟨r', Or.inr hr', hq', rfl⟩
      · rintro ⟨r', rfl | hr', hq', rfl⟩
        · exact absurd hq' h
        · exact ⟨r', hr', hq', rfl⟩

lemma mem_collectLaborItems {rows : List LaborRow} {x : LaborItemPayload} :
    x ∈ collectLaborItems rows
      ↔ ∃ r ∈ rows, (0 < parseOrZero r.reg ∨ 0 < parseOrZero r.ot)
          ∧ x = fixedLaborPayload r := by
  induction rows with
  | nil => simp [collectLaborItems]
  | cons r t ih =>
    by_cases h : 0 < parseOrZero r.reg ∨ 0 < parseOrZero r.ot
    · simp only [collectLaborItems, if_pos h, List.mem_cons, ih]
      constructor
      · rintro (rfl | ⟨r', hr', hq', rfl⟩)
        · exact ⟨r, Or.inl rfl, h, rfl⟩
        · exact ⟨r', Or.inr hr', hq', rfl⟩
      · rintro ⟨r', rfl | hr', hq', rfl⟩
        · exact Or.inl rfl
        · exact Or.inr ⟨r', hr', hq', rfl⟩
    · simp only [collectLaborItems, if_neg h, ih, List.mem_cons]
      constructor
      · rintro ⟨r', hr', hq', rfl⟩
        exact ⟨r', Or.inr hr', hq', rfl⟩
      · rintro ⟨r', rfl | hr', hq', rfl⟩
        · exact absurd hq' h
        · exact ⟨r', hr', hq', rfl⟩

lemma mem_collectEntries {rows : List EmployeeRow} {x : LaborItemPayload} :
    x ∈ collectEntries rows
      ↔ ∃ r ∈ rows, (0 < parseOrZero r.reg ∨ 0 < parseOrZero r.ot)
          ∧ x = employeePayload r := by
  induction rows with
  | nil => simp [collectEntries]
  | cons r t ih =>
    by_cases h : 0 < parseOrZero r.reg ∨ 0 < parseOrZero r.ot
    · simp only [collectEntries, if_pos h, List.mem_cons, ih]
      constructor
      · rintro (rfl | ⟨r', hr', hq', rfl⟩)
        · exact ⟨r, Or.inl rfl, h, rfl⟩
        · exact ⟨r', Or.inr hr', hq', rfl⟩
      · rintro ⟨r', rfl | hr', hq', rfl⟩
        · exact Or.inl rfl
        · exact Or.inr ⟨r', hr', hq', rfl⟩
    · simp only [collectEntries, if_neg h, ih, List.mem_cons]
      constructor
      · rintro ⟨r', hr', hq', rfl⟩
        exact ⟨r', Or.inr hr', hq', rfl⟩
      · rintro ⟨r', rfl | hr', hq', rfl⟩
        · exact absurd hq' h
        · exact ⟨r', hr', hq', rfl⟩

lemma saveEntry_post_eq {s : FormState} {p : SavePayload}
    (h : saveEntry s = SaveResult.post p) :
    p.line_items = collectLineItems s.materials
    ∧ p.equipment_items = collectEquipmentItems s.equipment
    ∧ p.labor_items = collectLaborItems s.labor ++ collectEntries s.employees := by
  simp only [saveEntry] at h
  split_ifs at h with h1 h2
  simp only [SaveResult.post.injEq] at h
  subst h
  exact ⟨rfl, rfl, rfl⟩

lemma saveEntry_post_nonempty {s : FormState} {p : SavePayload}
    (h : saveEntry s = SaveResult.post p) :
    p.line_items ≠ [] ∨ p.labor_items ≠ [] ∨ p.equipment_items ≠ [] := by
  simp only [saveEntry] at h
  split_ifs at h with h1 h2
  simp only [SaveResult.post.injEq] at h
  subst h
  dsimp only
  by_cases hline : collectLineItems s.materials = []
  · by_cases hlab : collectLaborItems s.labor ++ collectEntries s.employees = []
    · exact Or.inr (Or.inr fun hequip => h2 ⟨hline, hlab, hequip⟩)
    · exact Or.inr (Or.inl hlab)
  · exact Or.inl hline

lemma collectLineItems_nil {rows : List MaterialRow}
    (h : ∀ r ∈ rows, parseOrZero r.qty ≤ 0) : collectLineItems rows = [] := by
  induction rows with
  | nil => rfl
  | cons r t ih =>
    have hr := h r (List.mem_cons_self r t)
    simp only [collectLineItems, if_neg (not_lt.mpr hr)]
    exact ih fun a ha => h a (List.mem_cons_of_mem r ha)

lemma collectEquipmentItems_nil {rows : List EquipmentRow}
    (h : ∀ r ∈ rows, parseOrZero r.hours ≤ 0) : collectEquipmentItems rows = [] := by
  induction rows with
  | nil => rfl
  | cons r t ih =>
    have hr := h r (List.mem_cons_self r t)
    simp only [collectEquipmentItems, if_neg (not_lt.mpr hr)]
    exact ih fun a ha => h a (List.mem_cons_of_mem r ha)

lemma collectLaborItems_nil {rows : List LaborRow}
    (h : ∀ r ∈ rows, parseOrZero r.reg ≤ 0 ∧ parseOrZero r.ot ≤ 0) :
    collectLaborItems rows = [] := by
  induction rows with
  | nil => rfl
  | cons r t ih =>
    have hr := h r (List.mem_cons_self r t)
    simp only [collectLaborItems,
      if_neg (not_or.mpr ⟨not_lt.mpr hr.1, not_lt.mpr hr.2⟩)]
    exact ih fun a ha => h a (List.mem_cons_of_mem r ha)

lemma collectEntries_nil {rows : List EmployeeRow}
    (h : ∀ r ∈ rows, parseOrZero r.reg ≤ 0 ∧ parseOrZero r.ot ≤ 0) :
    collectEntries rows = [] := by
  induction rows with
  | nil => rfl
  | cons r t ih =>
    have hr := h r (List.mem_cons_self r t)
    simp only [collectEntries,
      if_neg (not_or.mpr ⟨not_lt.mpr hr.1, not_lt.mpr hr.2⟩)]
    exact ih fun a ha => h a (List.mem_cons_of_mem r ha)

lemma map_parseCell_equipment (rows : List EquipmentRow) :
    rows.map (fun r => parseCell (equipmentCellText r))
      = rows.map (fun r => round2 (equipListenerTotal r)) := by
  induction rows with
  | nil => rfl
  | cons r t ih =>
    simp only [List.map_cons, ih, List.cons.injEq, and_true]
    exact parseCell_cellText _

lemma map_parseCell_labor (rows : List LaborRow) :
    rows.map (fun r => parseCell (laborCellText r))
      = rows.map (fun r => round2 (laborRowTotal r)) := by
  induction rows with
  | nil => rfl
  | cons r t ih =>
    simp only [List.map_cons, ih, List.cons.injEq, and_true]
    exact parseCell_formatCurrency _

lemma map_congr_mem {α β : Type} {l : List α} {f g : α → β}
    (h : ∀ a ∈ l, f a = g a) : l.map f = l.map g := by
  induction l with
  | nil => rfl
  | cons a t ih =>
    simp only [List.map_cons, List.cons.injEq]
    exact ⟨h a (List.mem_cons_self a t), ih fun b hb => h b (List.mem_cons_of_mem a hb)⟩

lemma centsOf_eq (x : ℚ) (n : ℕ) (h1 : (n : ℚ) ≤ x * 100 + 1 / 2)
    (h2 : x * 100 + 1 / 2 < n + 1) : centsOf x = n := by
  unfold centsOf
  have hfloor : ⌊x * 100 + 1 / 2⌋ = (n : ℤ) := by
    rw [Int.floor_eq_iff]
    constructor
    · push_cast
      exact h1
    · push_cast
      exact h2
  rw [hfloor]
  simp

lemma round2_of_nonneg {x : ℚ} {n : ℕ} (hx : ¬x < 0) (h : centsOf x = n) :
    round2 x = (n : ℚ) / 100 := by
  rw [round2, if_neg hx, h]

lemma round2_sixty : round2 (60 : ℚ) = 60 := by
  rw [round2_of_nonneg (by norm_num) (centsOf_eq _ 6000 (by norm_num) (by norm_num))]
  norm_num

lemma round2_onesixty : round2 (160 : ℚ) = 160 := by
  rw [round2_of_nonneg (by norm_num) (centsOf_eq _ 16000 (by norm_num) (by norm_num))]
  norm_num

lemma round2_subcent : round2 (2501 / 250 : ℚ) = 10 := by
  rw [round2_of_nonneg (by norm_num) (centsOf_eq _ 1000 (by norm_num) (by norm_num))]
  norm_num

lemma round2_reparse : round2 (2501 / 125 : ℚ) = 2001 / 100 := by
  rw [round2_of_nonneg (by norm_num) (centsOf_eq _ 2001 (by norm_num) (by norm_num))]
  norm_num

lemma comma_not_mem_toFixed2Core (x : ℚ) : ',' ∉ toFixed2Core x := by
  intro h
  rcases toFixed2Core_chars h with hd | hd
  · exact (isDigit_ne_special hd).2.2.2 rfl
  · exact absurd hd (by decide)

/-- Claim C1: in updateEmployeeTotal, checking night_shift makes the
effective regular rate the straight rate plus exactly 2.00 and the
effective overtime rate the overtime rate plus exactly 2.00, while
leaving it unchecked uses the base rates unchanged, for all base rates
and hour values. -/
theorem night_shift_differential_adds_two (role : LaborRole) (reg ot : Option ℚ) :
    updateEmployeeTotal role reg ot true
      = parseOrZero reg * (role.straight_rate + 2) + parseOrZero ot * (role.overtime_rate + 2)
    ∧ updateEmployeeTotal role reg ot false
      = parseOrZero reg * role.straight_rate + parseOrZero ot * role.overtime_rate := by
  constructor <;> simp [updateEmployeeTotal]

/-- Claim C2: a fixed-rate labor row total equals regular hours times the
effective regular rate plus overtime hours times the effective overtime
rate, the effective rates coming from the night-shift rate rule applied
to the role base rates; in the scenario of one role at 20.00 straight,
8 regular hours total 160.00, the same row on night shift totals 176.00,
and the two rows together contribute 336.00. -/
theorem fixed_rate_labor_total_formula :
    (∀ (role : LaborRole) (reg ot : Option ℚ) (night : Bool),
      updateEmployeeTotal role reg ot night
        = parseOrZero reg * (rateResolver role.straight_rate role.overtime_rate night).1
          + parseOrZero ot * (rateResolver role.straight_rate role.overtime_rate night).2)
    ∧ laborRowTotal scenarioStraightRow = 160
    ∧ laborRowTotal scenarioNightRow = 176
    ∧ fixedLaborSubtotal [scenarioStraightRow, scenarioNightRow] = 336 := by
  refine ⟨fun role reg ot night => ?_, ?_, ?_, ?_⟩
  · cases night <;> simp [updateEmployeeTotal, rateResolver]
  · norm_num [laborRowTotal, updateEmployeeTotal, scenarioStraightRow, painterRole, parseOrZero]
  · norm_num [laborRowTotal, updateEmployeeTotal, scenarioNightRow, painterRole, parseOrZero]
  · norm_num [fixedLaborSubtotal, laborRowTotal, updateEmployeeTotal, scenarioStraightRow,
      scenarioNightRow, painterRole, parseOrZero]

/-- Claim C3: a material line total is quantity times unit price, an
empty or unparsable quantity or price counts as 0 instead of failing,
and 10 units at 2.50 total 25.00. -/
theorem material_line_total :
    (∀ q p : ℚ, updateLineTotal (some q) (some p) = q * p)
    ∧ (∀ p : Option ℚ, updateLineTotal none p = 0)
    ∧ (∀ q : Option ℚ, updateLineTotal q none = 0)
    ∧ updateLineTotal (some 10) (some (5 / 2)) = 25 := by
  refine ⟨fun q p => rfl, fun p => ?_, fun q => ?_, ?_⟩
  · simp [updateLineTotal, parseOrZero]
  · simp [updateLineTotal, parseOrZero]
  · norm_num [updateLineTotal, parseOrZero]

/-- Claim C4 counterexample: rendering an existing equipment item whose
stored pieces value is 1/2 (2 hours at rate 10.00) keeps the fractional
pieces and shows a total of 10.00, not the 20.00 that the claimed
default of pieces to 1 for values below 1 would give. -/
theorem equipment_render_pieces_counterexample :
    initialTotal (some halfPieceItem) 10 = 10
    ∧ listenerPieces (some (1 / 2)) * 2 * 10 = 20
    ∧ initialTotal (some halfPieceItem) 10 ≠ listenerPieces (some (1 / 2)) * 2 * 10 := by
  refine ⟨?_, ?_, ?_⟩ <;>
    norm_num [initialTotal, renderPieces, renderHours, halfPieceItem, listenerPieces]

/-- Claim C4 as amended: the recompute listener takes pieces as 1
whenever the field is unset, non-numeric or below 1 and as the entered
value otherwise, and the total is pieces times hours times rate; the
render path also computes pieces times hours times rate, but defaults
pieces to 1 only when the item or field is absent or the stored value is
0, keeping any other stored value, including values below 1, as is. -/
theorem equipment_pieces_default_rule :
    listenerPieces none = 1
    ∧ (∀ v : ℚ, v < 1 → listenerPieces (some v) = 1)
    ∧ (∀ v : ℚ, 1 ≤ v → listenerPieces (some v) = v)
    ∧ (∀ r : EquipmentRow, equipListenerTotal r
        = listenerPieces r.pieces * parseOrZero r.hours * parseOrZero r.hourlyRate)
    ∧ (∀ (e : Option ExistingEquipmentItem) (rate : ℚ),
        initialTotal e rate = renderPieces e * renderHours e * rate)
    ∧ renderPieces none = 1
    ∧ (∀ ei : ExistingEquipmentItem, ei.pieces = none → renderPieces (some ei) = 1)
    ∧ (∀ ei : ExistingEquipmentItem, ei.pieces = some 0 → renderPieces (some ei) = 1)
    ∧ (∀ (ei : ExistingEquipmentItem) (v : ℚ), ei.pieces = some v → v ≠ 0 →
        renderPieces (some ei) = v) := by
  refine ⟨rfl, fun v hv => ?_, fun v hv => ?_, fun r => rfl, fun e rate => rfl, rfl,
    fun ei hei => ?_, fun ei hei => ?_, fun ei v hei hv => ?_⟩
  · simp [listenerPieces, if_pos hv]
  · simp [listenerPieces, if_neg (not_lt.mpr hv)]
  · simp [renderPieces, hei]
  · simp [renderPieces, hei]
  · simp [renderPieces, hei, if_neg hv]

/-- Witness for the amended claim C4 at concrete inputs: the listener
clamps 3/4 to 1 while the render path keeps a stored 3/4, and an absent
stored field renders as 1. -/
theorem equipment_pieces_default_rule_witness :
    listenerPieces (some (3 / 4)) = 1
    ∧ renderPieces (some ⟨some (3 / 4), 5⟩) = 3 / 4
    ∧ renderPieces (some ⟨none, 5⟩) = 1 := by
  have h := equipment_pieces_default_rule
  exact ⟨h.2.1 (3 / 4) (by norm_num),
    h.2.2.2.2.2.2.2.2 ⟨some (3 / 4), 5⟩ (3 / 4) rfl (by norm_num),
    h.2.2.2.2.2.2.1 ⟨none, 5⟩ rfl⟩

/-- Claim C5 as amended: the displayed daily grand total equals the
materials subtotal plus the equipment subtotal plus the labor subtotal
(fixed-rate lines plus the burdened-employee total) whenever every
equipment and labor line total is exact to the cent; in general the
equipment and labor line totals enter rounded to the nearest cent,
because calculateTotal re-parses their formatted Total cells. -/
theorem grand_total_is_sum_of_subtotals (s : FormState)
    (he : ∀ r ∈ s.equipment, round2 (equipListenerTotal r) = equipListenerTotal r)
    (hl : ∀ r ∈ s.labor, round2 (laborRowTotal r) = laborRowTotal r) :
    calculateTotal s
      = materialsSubtotal s.materials + equipmentSubtotal s.equipment
        + (fixedLaborSubtotal s.labor + s.employeesModuleTotal) := by
  unfold calculateTotal equipmentSubtotal fixedLaborSubtotal
  rw [map_parseCell_equipment, map_parseCell_labor, map_congr_mem he, map_congr_mem hl]
  ring

/-- Witness for the amended claim C5 on a state whose line totals
10 x 2.50 = 25.00, 2 x 3 x 10.00 = 60.00 and 8 x 20.00 = 160.00 are all
exact to the cent. -/
theorem grand_total_subtotals_witness :
    calculateTotal exactState
      = materialsSubtotal exactState.materials + equipmentSubtotal exactState.equipment
        + (fixedLaborSubtotal exactState.labor + exactState.employeesModuleTotal) := by
  have h60 : equipListenerTotal ⟨"Crane", some 2, some 3, some 10⟩ = 60 := by
    norm_num [equipListenerTotal, listenerPieces, parseOrZero]
  have h160 : laborRowTotal scenarioStraightRow = 160 := by
    norm_num [laborRowTotal, updateEmployeeTotal, scenarioStraightRow, painterRole, parseOrZero]
  refine grand_total_is_sum_of_subtotals exactState ?_ ?_
  · intro r hr
    simp only [exactState, List.mem_singleton] at hr
    subst hr
    rw [h60, round2_sixty]
  · intro r hr
    simp only [exactState, List.mem_singleton] at hr
    subst hr
    rw [h160, round2_onesixty]

/-- Claim C5 counterexample: on a state with a single labor row of one
regular hour at the rate 10.004, the displayed daily grand total is
10.00 (the cell value re-parsed) while the sum of the subtotals is
10.004, so the claim as stated fails. -/
theorem grand_total_subtotal_counterexample :
    calculateTotal subcentState
      ≠ materialsSubtotal subcentState.materials + equipmentSubtotal subcentState.equipment
        + (fixedLaborSubtotal subcentState.labor + subcentState.employeesModuleTotal) := by
  have hrow : laborRowTotal ⟨fractionalRateRole, "", some 1, none, false⟩ = 2501 / 250 := by
    norm_num [laborRowTotal, updateEmployeeTotal, fractionalRateRole, parseOrZero]
  have hleft : calculateTotal subcentState = 10 := by
    simp only [calculateTotal, subcentState, materialsSubtotal, List.map_nil, List.map_cons,
      List.sum_nil, List.sum_cons, laborCellText, parseCell_formatCurrency, hrow,
      round2_subcent]
    norm_num
  have hright : materialsSubtotal subcentState.materials
      + equipmentSubtotal subcentState.equipment
      + (fixedLaborSubtotal subcentState.labor + subcentState.employeesModuleTotal)
      = 2501 / 250 := by
    simp only [subcentState, materialsSubtotal, equipmentSubtotal, fixedLaborSubtotal,
      List.map_nil, List.map_cons, List.sum_nil, List.sum_cons, hrow]
    norm_num
  rw [hleft, hright]
  norm_num

/-- Claim C6: the posted payload contains a material line exactly when
its parsed quantity is positive, an equipment line exactly when its
parsed hours are positive, and a labor line (fixed-rate or burdened)
exactly when its parsed regular or overtime hours are positive;
zero-valued lines never appear. -/
theorem saved_payload_positive_lines (s : FormState) (p : SavePayload)
    (hpost : saveEntry s = SaveResult.post p) :
    (∀ li ∈ p.line_items, 0 < li.quantity)
    ∧ (∀ r ∈ s.materials, (matPayload r ∈ p.line_items ↔ 0 < parseOrZero r.qty))
    ∧ (∀ e ∈ p.equipment_items, 0 < e.quantity)
    ∧ (∀ r ∈ s.equipment, (equipPayload r ∈ p.equipment_items ↔ 0 < parseOrZero r.hours))
    ∧ (∀ l ∈ p.labor_items, 0 < l.regular_hours ∨ 0 < l.overtime_hours)
    ∧ (∀ r ∈ s.labor, (fixedLaborPayload r ∈ p.labor_items
        ↔ (0 < parseOrZero r.reg ∨ 0 < parseOrZero r.ot)))
    ∧ (∀ r ∈ s.employees, (employeePayload r ∈ p.labor_items
        ↔ (0 < parseOrZero r.reg ∨ 0 < parseOrZero r.ot))) := by
  obtain ⟨hli, heq, hla⟩ := saveEntry_post_eq hpost
  refine ⟨?_, ?_, ?_, ?_, ?_, ?_, ?_⟩
  · intro li hmem
    rw [hli] at hmem
    obtain ⟨r, hr, hq, rfl⟩ := mem_collectLineItems.mp hmem
    exact hq
  · intro r hr
    rw [hli]
    constructor
    · intro hmem
      obtain ⟨r', hr', hq', hpay⟩ := mem_collectLineItems.mp hmem
      have hqeq : parseOrZero r.qty = parseOrZero r'.qty :=
        congrArg LineItemPayload.quantity hpay
      rw [hqeq]
      exact hq'
    · intro hq
      exact mem_collectLineItems.mpr ⟨r, hr, hq, rfl⟩
  · intro e hmem
    rw [heq] at hmem
    obtain ⟨r, hr, hq, rfl⟩ := mem_collectEquipmentItems.mp hmem
    exact hq
  · intro r hr
    rw [heq]
    constructor
    · intro hmem
      obtain ⟨r', hr', hq', hpay⟩ := mem_collectEquipmentItems.mp hmem
      have hqeq : parseOrZero r.hours = parseOrZero r'.hours :=
        congrArg EquipmentItemPayload.quantity hpay
      rw [hqeq]
      exact hq'
    · intro hq
      exact mem_collectEquipmentItems.mpr ⟨r, hr, hq, rfl⟩
  · intro l hmem
    rw [hla] at hmem
    rcases List.mem_append.mp hmem with hm | hm
    · obtain ⟨r, hr, hq, rfl⟩ := mem_collectLaborItems.mp hm
      exact hq
    · obtain ⟨r, hr, hq, rfl⟩ := mem_collectEntries.mp hm
      exact hq
  · intro r hr
    rw [hla]
    constructor
    · intro hmem
      rcases List.mem_append.mp hmem with hm | hm
      · obtain ⟨r', hr', hq', hpay⟩ := mem_collectLaborItems.mp hm
        have hreg : parseOrZero r.reg = parseOrZero r'.reg :=
          congrArg LaborItemPayload.regular_hours hpay
        have hot : parseOrZero r.ot = parseOrZero r'.ot :=
          congrArg LaborItemPayload.overtime_hours hpay
        rw [hreg, hot]
        exact hq'
      · obtain ⟨r', hr', hq', hpay⟩ := mem_collectEntries.mp hm
        exact absurd hpay (by simp [fixedLaborPayload, employeePayload])
    · intro hq
      exact List.mem_append.mpr (Or.inl (mem_collectLaborItems.mpr ⟨r, hr, hq, rfl⟩))
  · intro r hr
    rw [hla]
    constructor
    · intro hmem
      rcases List.mem_append.mp hmem with hm | hm
      · obtain ⟨r', hr', hq', hpay⟩ := mem_collectLaborItems.mp hm
        exact absurd hpay (by simp [fixedLaborPayload, employeePayload])
      · obtain ⟨r', hr', hq', hpay⟩ := mem_collectEntries.mp hm
        have hreg : parseOrZero r.reg = parseOrZero r'.reg :=
          congrArg LaborItemPayload.regular_hours hpay
        have hot : parseOrZero r.ot = parseOrZero r'.ot :=
          congrArg LaborItemPayload.overtime_hours hpay
        rw [hreg, hot]
        exact hq'
    · intro hq
      exact List.mem_append.mpr (Or.inr (mem_collectEntries.mpr ⟨r, hr, hq, rfl⟩))

/-- Witness for claim C6 on a state mixing positive and zero rows: the
5-unit material row is saved, the empty-quantity material row is not. -/
theorem saved_payload_positive_lines_witness :
    matPayload ⟨7, some 5, some 2⟩ ∈ savedPayload.line_items
    ∧ matPayload ⟨8, none, some 3⟩ ∉ savedPayload.line_items := by
  have h := saved_payload_positive_lines saveState savedPayload (by decide)
  constructor
  · exact (h.2.1 ⟨7, some 5, some 2⟩ (by decide)).mpr (by norm_num [parseOrZero])
  · intro hmem
    have := (h.2.1 ⟨8, none, some 3⟩ (by decide)).mp hmem
    norm_num [parseOrZero] at this

/-- Claim C7: with an empty job number or entry date, saveEntry stops at
the validation alert before collecting or posting anything, and
loadEntry stops before issuing its fetch. -/
theorem missing_required_field_blocks (s : FormState)
    (h : s.jobNumber = "" ∨ s.entryDate = "") :
    saveEntry s = SaveResult.missingField
    ∧ ∀ job date : String, (job = "" ∨ date = "") → loadEntry job date = LoadResult.missingField := by
  constructor
  · simp only [saveEntry, if_pos h]
  · intro job date hjd
    simp only [loadEntry, if_pos hjd]

/-- Witness for claim C7 at a state with an empty job number. -/
theorem missing_required_field_blocks_witness :
    saveEntry missingJobState = SaveResult.missingField
    ∧ loadEntry "" "2024-06-01" = LoadResult.missingField := by
  have h := missing_required_field_blocks missingJobState (Or.inl rfl)
  exact ⟨h.1, h.2 "" "2024-06-01" (Or.inl rfl)⟩

/-- Claim C8 at its failing input: for an equipment row of one hour at
the rate 20.008 the computed grand total is 20.01, because
calculateTotal re-parses the formatted Total cell instead of using the
unrounded line total 20.008, so intermediate values are rounded before
aggregation. -/
theorem calculate_total_parses_formatted_cells :
    calculateTotal reparseState = 2001 / 100
    ∧ equipListenerTotal ⟨"Crane", none, some 1, some (2501 / 125)⟩ = 2501 / 125
    ∧ calculateTotal reparseState
        ≠ materialsSubtotal reparseState.materials + equipmentSubtotal reparseState.equipment
          + (fixedLaborSubtotal reparseState.labor + reparseState.employeesModuleTotal) := by
  have hrow : equipListenerTotal ⟨"Crane", none, some 1, some (2501 / 125)⟩ = 2501 / 125 := by
    norm_num [equipListenerTotal, listenerPieces, parseOrZero]
  have hleft : calculateTotal reparseState = 2001 / 100 := by
    simp only [calculateTotal, reparseState, materialsSubtotal, List.map_nil, List.map_cons,
      List.sum_nil, List.sum_cons, equipmentCellText, parseCell_cellText, hrow,
      round2_reparse]
    norm_num
  have hright : materialsSubtotal reparseState.materials
      + equipmentSubtotal reparseState.equipment
      + (fixedLaborSubtotal reparseState.labor + reparseState.employeesModuleTotal)
      = 2501 / 125 := by
    simp only [reparseState, materialsSubtotal, equipmentSubtotal, fixedLaborSubtotal,
      List.map_nil, List.map_cons, List.sum_nil, List.sum_cons, hrow]
    norm_num
  refine ⟨hleft, hrow, ?_⟩
  rw [hleft, hright]
  norm_num

/-- Claim C9: formatCurrency renders exactly one dollar sign followed by
the amount with exactly two decimal digits after the single dot, the
integer part being a minus sign and digits only, with no thousands
separator anywhere. -/
theorem format_currency_shape (q : ℚ) :
    ∃ (pre : List Char) (d1 d2 : Char),
      (formatCurrency q).data = '$' :: (pre ++ ['.', d1, d2])
      ∧ d1.isDigit ∧ d2.isDigit
      ∧ '.' ∉ pre
      ∧ (∀ c ∈ pre, c = '-' ∨ c.isDigit)
      ∧ ',' ∉ (formatCurrency q).data := by
  by_cases hq : q < 0
  · have hdata : (formatCurrency q).data = '$' :: '-' :: toFixed2Core (-q) := by
      simp [formatCurrency, toFixed2, hq, String.data_append]
    have hm : centsOf (-q) % 100 < 100 := Nat.mod_lt _ (by norm_num)
    refine ⟨'-' :: natDigits (centsOf (-q) / 100),
      Nat.digitChar (centsOf (-q) % 100 / 10), Nat.digitChar (centsOf (-q) % 100 % 10),
      ?_, digitChar_isDigit (by omega), digitChar_isDigit (Nat.mod_lt _ (by norm_num)),
      ?_, ?_, ?_⟩
    · rw [hdata]
      rfl
    · intro hmem
      rcases List.mem_cons.mp hmem with h | h
      · exact absurd h (by decide)
      · exact (isDigit_ne_special (natDigits_digits h)).1 rfl
    · intro c hc
      rcases List.mem_cons.mp hc with rfl | h
      · exact Or.inl rfl
      · exact Or.inr (natDigits_digits h)
    · rw [hdata]
      intro hmem
      rcases List.mem_cons.mp hmem with h | h
      · exact absurd h (by decide)
      · rcases List.mem_cons.mp h with h2 | h2
        · exact absurd h2 (by decide)
        · exact comma_not_mem_toFixed2Core _ h2
  · have hdata : (formatCurrency q).data = '$' :: toFixed2Core q := by
      simp [formatCurrency, toFixed2, hq, String.data_append]
    have hm : centsOf q % 100 < 100 := Nat.mod_lt _ (by norm_num)
    refine ⟨natDigits (centsOf q / 100),
      Nat.digitChar (centsOf q % 100 / 10), Nat.digitChar (centsOf q % 100 % 10),
      ?_, digitChar_isDigit (by omega), digitChar_isDigit (Nat.mod_lt _ (by norm_num)),
      ?_, ?_, ?_⟩
    · rw [hdata]
      rfl
    · intro hmem
      exact (isDigit_ne_special (natDigits_digits hmem)).1 rfl
    · intro c hc
      exact Or.inr (natDigits_digits hc)
    · rw [hdata]
      intro hmem
      rcases List.mem_cons.mp hmem with h | h
      · exact absurd h (by decide)
      · exact comma_not_mem_toFixed2Core _ h

/-- Claim C10: when the header is valid but every row of every kind has
a non-positive driving quantity, saveEntry stops at the
at-least-one-line-item alert and posts nothing; conversely a payload is
only ever posted when at least one collected list is non-empty. -/
theorem empty_entry_not_posted (s : FormState)
    (hjob : s.jobNumber ≠ "") (hdate : s.entryDate ≠ "")
    (hm : ∀ r ∈ s.materials, parseOrZero r.qty ≤ 0)
    (he : ∀ r ∈ s.equipment, parseOrZero r.hours ≤ 0)
    (hl : ∀ r ∈ s.labor, parseOrZero r.reg ≤ 0 ∧ parseOrZero r.ot ≤ 0)
    (hb : ∀ r ∈ s.employees, parseOrZero r.reg ≤ 0 ∧ parseOrZero r.ot ≤ 0) :
    saveEntry s = SaveResult.emptyEntry
    ∧ ∀ (s2 : FormState) (p : SavePayload), saveEntry s2 = SaveResult.post p →
        p.line_items ≠ [] ∨ p.labor_items ≠ [] ∨ p.equipment_items ≠ [] := by
  constructor
  · simp only [saveEntry, if_neg (not_or.mpr ⟨hjob, hdate⟩)]
    rw [if_pos ⟨collectLineItems_nil hm,
      by rw [collectLaborItems_nil hl, collectEntries_nil hb]; rfl,
      collectEquipmentItems_nil he⟩]
  · intro s2 p hpost
    exact saveEntry_post_nonempty hpost

/-- Witness for claim C10 at a state with a valid header and only zero
or empty rows. -/
theorem empty_entry_not_posted_witness :
    saveEntry zeroState = SaveResult.emptyEntry :=
  (empty_entry_not_posted zeroState (by decide) (by decide) (by decide) (by decide)
    (by decide) (by decide)).1

end TrackTM
